import Mathlib

/-!
Verification of the core logic of the jc-toggl workflow (alfred_toggl.py and
toggl.py): time-entry data model, quarter-hour quantization, approximate time
phrases, window clipping in `Effort.add`, description-based aggregation,
cache-staleness decisions, cache invalidation by mutating actions, and the
error path of the fetch-and-cache step of `tell_query`.

Modelling conventions: timestamps are epoch seconds as `Int` (the Python code
works with whole-second timestamps from the remote API; `int(...)` truncation
of a whole-second difference is the identity); Python floats produced by the
divisions in `to_hours` / `to_approximate_time` are modelled as exact
rationals (for the integer-second inputs these functions receive, the double
computations and the rational ones round identically); optional/absent JSON
fields are `Option`; a raised exception is an `Except.error`.
-/

namespace JcToggl

/-- One remote timer record, as stored in the cache and returned by the API
(`toggl.py`, class `TimeEntry`).  `stop = none` models an absent `stop`
field; `duration < 0` is the "currently running" sentinel. -/
structure TimeEntry where
  id : Int
  description : String
  start : Int
  stop : Option Int
  duration : Int
deriving DecidableEq

/-- `TimeEntry.start_time` (toggl.py line 131): the parsed `start` field. -/
def TimeEntry.start_time (e : TimeEntry) : Int := e.start

/-- `TimeEntry.stop_time` (toggl.py lines 134-142): the parsed `stop` field
when present, otherwise `start_time + duration` - unconditionally, even when
`duration` is the negative running sentinel. -/
def TimeEntry.stop_time (e : TimeEntry) : Int :=
  match e.stop with
  | some st => st
  | none => e.start_time + e.duration

/-- `TimeEntry.is_running` (toggl.py lines 156-158): `duration < 0`. -/
def TimeEntry.is_running (e : TimeEntry) : Bool := decide (e.duration < 0)

/-- The mathematical ceiling of a rational (Python's `math.ceil`), computed
through `Rat.floor` so that the kernel can evaluate it on literals. -/
def ratCeil (q : Rat) : Int := -((-q).floor)

/-- Round-half-even on rationals: the rounding used by Python's
`'{0:.0f}'.format` on the float values arising in `to_approximate_time`
(those values are exactly representable at the half-integer boundaries,
where this rounding rule is the one that decides). -/
def rhe (q : Rat) : Int :=
  if q - q.floor < 1/2 then q.floor
  else if 1/2 < q - q.floor then q.floor + 1
  else if 2 ∣ q.floor then q.floor else q.floor + 1

/-- `to_hours` (alfred_toggl.py lines 43-54), numeric-seconds branch: returns
the pair (quantized hours, exact hours) where the quantized value is
`ceil(hours * 4) / 4`. -/
def to_hours (seconds : Int) : Rat × Rat :=
  let hours : Rat := (seconds : Rat) / (60 * 60)
  let exact_hours := hours
  ((ratCeil (hours * 4) : Rat) / 4, exact_hours)

/-- Follows the spec's words (section 4.2, "quantization rounds to the nearest
quarter hour (`round(hours*4)/4`)"): the quantized hours a
nearest-rounding implementation would return, for comparison with the
ceiling-based `to_hours` of the source. -/
def to_hours_spec (seconds : Int) : Rat :=
  (round (((seconds : Rat) / (60 * 60)) * 4) : Rat) / 4

/-- Python's `'{0:.0f}'.format` on a float value, modelled on rationals. -/
def fmt_f0 (v : Rat) : String := toString (rhe v)

/-- `to_approximate_time` (alfred_toggl.py lines 57-77).  The Python
`timedelta` argument is passed as its normalized `days` and `seconds`
attributes (`0 ≤ seconds < 86400`). -/
def to_approximate_time (days : Int) (seconds : Nat) (ago : Bool) : String :=
  let agoStr := if ago then " ago" else ""
  if days < 1 then
    if 60 * 60 < seconds then
      fmt_f0 ((seconds : Rat) / (60 * 60)) ++ " hours" ++ agoStr
    else if 60 < seconds then
      fmt_f0 ((seconds : Rat) / 60) ++ " minutes" ++ agoStr
    else
      toString seconds ++ " seconds" ++ agoStr
  else if days = 1 then "yesterday"
  else toString days ++ " days" ++ agoStr

/-- Follows the spec's words (section 4.3 time-phrase rule): seconds when the
delta is under 60s, minutes when under 3600s, hours otherwise; for
comparison with the source's `to_approximate_time`. -/
def to_approximate_time_spec (days : Int) (seconds : Nat) (ago : Bool) : String :=
  let agoStr := if ago then " ago" else ""
  if days < 1 then
    if seconds < 60 then
      toString seconds ++ " seconds" ++ agoStr
    else if seconds < 60 * 60 then
      fmt_f0 ((seconds : Rat) / 60) ++ " minutes" ++ agoStr
    else
      fmt_f0 ((seconds : Rat) / (60 * 60)) ++ " hours" ++ agoStr
  else if days = 1 then "yesterday"
  else toString days ++ " days" ++ agoStr

/-- The window filter of `tell_query` with only a start time
(alfred_toggl.py line 276): keep an entry iff `stop_time > start`. -/
def keep_after (ws : Int) (e : TimeEntry) : Bool := decide (e.stop_time > ws)

/-- The window filter of `tell_query` with both bounds
(alfred_toggl.py lines 273-274): keep iff `start_time < end` and
`stop_time > start`. -/
def keep_window (ws we : Int) (e : TimeEntry) : Bool :=
  decide (e.start_time < we) && decide (e.stop_time > ws)

/-- The amount `Effort.add` (alfred_toggl.py lines 169-181) adds to
`self.seconds` for one entry, given the effort's optional window bounds and
the wall-clock `now` used for running entries. -/
def contribution (e : TimeEntry) (wstart wend : Option Int) (now : Int) : Int :=
  if e.duration ≥ 0 then
    let d1 := e.duration
    let d2 := match wstart with
      | some ws => if e.start_time < ws then d1 - (ws - e.start_time) else d1
      | none => d1
    match wend with
    | some we => if e.stop_time ≥ we then d2 - (e.stop_time - we - 1) else d2
    | none => d2
  else
    now - e.start_time

/-- An aggregation group (`Effort`, alfred_toggl.py lines 153-193). -/
structure Effort where
  description : String
  time_entries : List TimeEntry
  seconds : Int
  start_time : Option Int
  end_time : Option Int

/-- `Effort.__init__` as called from `tell_query` line 285:
`Effort(entry.description, start, end)`. -/
def new_effort (d : String) (ws we : Option Int) : Effort :=
  { description := d, time_entries := [], seconds := 0,
    start_time := ws, end_time := we }

/-- `Effort.add` (alfred_toggl.py lines 164-181): raises when the entry's
description differs, else appends the entry and accumulates its clipped
contribution. -/
def Effort.add (eff : Effort) (e : TimeEntry) (now : Int) : Except String Effort :=
  if e.description ≠ eff.description then
    .error "Entry description does not match this effort"
  else
    .ok { eff with
          time_entries := eff.time_entries ++ [e],
          seconds := eff.seconds + contribution e eff.start_time eff.end_time now }

/-- Helper for one step of the grouping loop: the effort whose description
matches the entry absorbs it, every other effort is left alone.  (The
`Except.error` arm is unreachable in the loop: the chosen effort's
description always equals the entry's.) -/
def upd_effort (e : TimeEntry) (now : Int) (f : Effort) : Effort :=
  if f.description = e.description then
    match f.add e now with
    | .ok f2 => f2
    | .error _ => f
  else f

/-- One step of the grouping loop of `tell_query` (alfred_toggl.py lines
283-287): if an effort with the entry's description exists, add the entry to
it, otherwise create a fresh effort for that description and add the entry
to it. -/
def add_entry (now : Int) (ws we : Option Int) (effs : List Effort)
    (e : TimeEntry) : List Effort :=
  if effs.any (fun f => decide (f.description = e.description)) then
    effs.map (upd_effort e now)
  else
    match (new_effort e.description ws we).add e now with
    | .ok f2 => effs ++ [f2]
    | .error _ => effs

/-- The grouping loop of `tell_query` (alfred_toggl.py lines 279-287) over a
batch of entries, in order.  Python dicts preserve insertion order, so the
efforts list carries the buckets in first-seen order with entries appended in
input order. -/
def aggregate (es : List TimeEntry) (ws we : Option Int) (now : Int) : List Effort :=
  es.foldl (add_entry now ws we) []

/-- The entries of the first effort whose description is `d` (the bucket
`efforts[d]` of `tell_query` - descriptions are unique in the efforts list,
see `aggregate_keys_nodup`), or `[]` when there is none. -/
def entries_for (effs : List Effort) (d : String) : List TimeEntry :=
  match effs with
  | [] => []
  | f :: rest => if f.description = d then f.time_entries else entries_for rest d

/-- The cache file contents used by `tell_query` / `schedule_refresh`
(alfred_toggl.py).  `none` models an absent or JSON-null key. -/
structure CacheSnapshot where
  time : Option Int
  time_entries : Option (List TimeEntry)
deriving DecidableEq

/-- Python truthiness of `self.cache.get('time')`: false when the key is
absent/null or holds 0. -/
def time_truthy (c : CacheSnapshot) : Bool :=
  match c.time with
  | some t => decide (t ≠ 0)
  | none => false

/-- Python truthiness of `self.cache.get('time_entries')`: false when the
key is absent/null or holds an empty list. -/
def entries_truthy (c : CacheSnapshot) : Bool :=
  match c.time_entries with
  | some l => decide (l ≠ [])
  | none => false

/-- `CACHE_LIFETIME` (alfred_toggl.py line 12). -/
def CACHE_LIFETIME : Int := 300

/-- The staleness decision of `tell_query` (alfred_toggl.py lines 233-249):
refresh when the force flag (`disable_cache`) is set, when timestamp or
entries are missing/falsy, or when `now - last_load_time > ttl`. -/
def needs_refresh (c : CacheSnapshot) (now ttl : Int) (force : Bool) : Bool :=
  if force then true
  else if time_truthy c && entries_truthy c then
    decide (now - c.time.getD 0 > ttl)
  else true

/-- `schedule_refresh` (alfred_toggl.py lines 533-535): set the cache
timestamp to 0, leaving everything else alone. -/
def schedule_refresh (c : CacheSnapshot) : CacheSnapshot :=
  { c with time := some 0 }

/-- The first component of Python's `query.partition('|')` (alfred_toggl.py
line 472): the text before the first `|`. -/
def cmd_of (query : String) : String :=
  (query.toList.takeWhile (fun ch => decide (ch ≠ '|'))).asString

/-- The effect of `do_action` (alfred_toggl.py lines 470-531) on the cache
snapshot: the mutating verbs `start`, `continue` and `stop` call
`schedule_refresh`; `force_refresh` nulls the stored entries; every other
verb leaves the cache alone. -/
def do_action_cache (query : String) (c : CacheSnapshot) : CacheSnapshot :=
  let cmd := cmd_of query
  if cmd = "start" then schedule_refresh c
  else if cmd = "continue" then schedule_refresh c
  else if cmd = "stop" then schedule_refresh c
  else if cmd = "force_refresh" then { c with time_entries := none }
  else c

/-- The fetch-and-cache step of `tell_query` (alfred_toggl.py lines 251-265):
when a refresh is needed, a failing fetch is re-raised as "Problem talking to
toggl.com" before any cache write, and a successful fetch overwrites
timestamp and entries; otherwise the cached entries are used.  `fetch` is
the outcome of the external `toggl.TimeEntry.all()` call. -/
def tell_query_fetch (c : CacheSnapshot) (now : Int) (force : Bool)
    (fetch : Except Unit (List TimeEntry)) :
    CacheSnapshot × Except String (List TimeEntry) :=
  if needs_refresh c now CACHE_LIFETIME force then
    match fetch with
    | .error _ => (c, .error "Problem talking to toggl.com")
    | .ok es => ({ time := some now, time_entries := some es }, .ok es)
  else
    (c, .ok (c.time_entries.getD []))

/-! ### Helper lemmas -/

theorem rat_floor_eq (q : Rat) : q.floor = ⌊q⌋ :=
  (Rat.floor_def' q).trans Rat.floor_def.symm

theorem rat_ceil_eq (q : Rat) : ratCeil q = ⌈q⌉ := by
  rw [ratCeil, rat_floor_eq, Int.floor_neg, neg_neg]

theorem rhe_close (q : Rat) : |(rhe q : Rat) - q| ≤ 1/2 := by
  have h0 : (⌊q⌋ : Rat) ≤ q := Int.floor_le q
  have h1 : q < ⌊q⌋ + 1 := Int.lt_floor_add_one q
  rw [rhe, rat_floor_eq]
  split_ifs <;> rw [abs_le] <;> constructor <;> push_cast <;> linarith

/-! ### Claim C2 -/

theorem to_hours_fst (s : Int) :
    (to_hours s).1 = ((⌈(s : Rat) / (60 * 60) * 4⌉ : Int) : Rat) / 4 := by
  rw [to_hours, rat_ceil_eq]

theorem to_hours_at_zero : (to_hours 0).1 = 0 := by
  have h : ((0 : Int) : Rat) / (60 * 60) * 4 = 0 := by norm_num
  rw [to_hours_fst, h, Int.ceil_zero]
  norm_num

theorem to_hours_at_ninety : (to_hours 90).1 = 1/4 := by
  have hc : ⌈((90 : Int) : Rat) / (60 * 60) * 4⌉ = 1 := by
    rw [Int.ceil_eq_iff]
    norm_num
  rw [to_hours_fst, hc]
  norm_num

/-- Claim C2 counterexample: `to_hours` does not round to the nearest
quarter hour, and zero seconds does not produce 0.25.  At 90 seconds the
exact value is 0.025 hours; nearest-quarter rounding (the spec's
`round(hours*4)/4`) gives 0, while the code's ceiling gives 0.25; and at 0
seconds the code gives 0 hours, not the claimed 0.25 minimum. -/
theorem to_hours_round_counterexample :
    (to_hours 90).1 = 1/4 ∧ to_hours_spec 90 = 0 ∧
    to_hours_spec 90 ≠ (to_hours 90).1 ∧ (to_hours 0).1 = 0 := by
  have hspec : to_hours_spec 90 = 0 := by
    rw [to_hours_spec]
    have h : round (((90 : Int) : Rat) / (60 * 60) * 4) = 0 := by
      rw [round_eq, Int.floor_eq_iff]
      norm_num
    rw [h]
    norm_num
  refine ⟨to_hours_at_ninety, hspec, ?_, to_hours_at_zero⟩
  rw [hspec, to_hours_at_ninety]
  norm_num

/-- Claim C2 (amended): `to_hours` quantizes by rounding up to the next
quarter hour: the quantized component is the least multiple of 0.25 that is
at least the exact hours value `seconds/3600`; an input of zero seconds
yields 0 hours (not 0.25). -/
theorem to_hours_quantizes_up (s : Int) :
    (to_hours s).2 = (s : Rat) / 3600 ∧
    (∃ k : Int, (to_hours s).1 = (k : Rat) / 4) ∧
    (to_hours s).2 ≤ (to_hours s).1 ∧
    (to_hours s).1 - 1/4 < (to_hours s).2 ∧
    (to_hours 0).1 = 0 := by
  have hx := to_hours_fst s
  have h2 : (to_hours s).2 = (s : Rat) / (60 * 60) := rfl
  have hle : (s : Rat) / (60 * 60) * 4 ≤ (⌈(s : Rat) / (60 * 60) * 4⌉ : Rat) :=
    Int.le_ceil _
  have hlt : ((⌈(s : Rat) / (60 * 60) * 4⌉ : Int) : Rat) < (s : Rat) / (60 * 60) * 4 + 1 :=
    Int.ceil_lt_add_one _
  refine ⟨by rw [h2]; norm_num, ⟨⌈(s : Rat) / (60 * 60) * 4⌉, hx⟩, ?_, ?_, to_hours_at_zero⟩
  · rw [hx, h2]; linarith
  · rw [hx, h2]; linarith

/-! ### Claim C9 -/

/-- Claim C9: the quantized output of `to_hours` is always a multiple of
0.25, and any seconds value in the interval (0, 900] quantizes to exactly
0.25. -/
theorem to_hours_quarter_multiple (s : Int) :
    (∃ k : Int, (to_hours s).1 = (k : Rat) * (1/4)) ∧
    (0 < s → s ≤ 900 → (to_hours s).1 = 1/4) := by
  have hx := to_hours_fst s
  constructor
  · exact ⟨⌈(s : Rat) / (60 * 60) * 4⌉, by rw [hx]; ring⟩
  · intro hpos hle
    have hq1 : (0 : Rat) < (s : Rat) / (60 * 60) * 4 := by
      have : (0 : Rat) < (s : Rat) := by exact_mod_cast hpos
      positivity
    have hq2 : (s : Rat) / (60 * 60) * 4 ≤ 1 := by
      have : (s : Rat) ≤ 900 := by exact_mod_cast hle
      rw [div_mul_eq_mul_div, mul_comm]
      rw [div_le_one (by norm_num)]
      linarith
    have hceil : ⌈(s : Rat) / (60 * 60) * 4⌉ = 1 := by
      rw [Int.ceil_eq_iff]
      push_cast
      exact ⟨by linarith, hq2⟩
    rw [hx, hceil]
    norm_num

/-- Claim C9 witness: 450 seconds quantizes to exactly 0.25 hours, a
multiple of 0.25. -/
theorem to_hours_quarter_multiple_witness :
    (∃ k : Int, (to_hours 450).1 = (k : Rat) * (1/4)) ∧ (to_hours 450).1 = 1/4 :=
  ⟨(to_hours_quarter_multiple 450).1,
   (to_hours_quarter_multiple 450).2 (by norm_num) (by norm_num)⟩

/-! ### Claim C3 -/

theorem rhe_eq_self_of (q : Rat) (z : Int) (hf : ⌊q⌋ = z) (h : q - z < 1/2) :
    rhe q = z := by
  rw [rhe, rat_floor_eq, hf, if_pos h]

theorem rhe_eq_add_one_of (q : Rat) (z : Int) (hf : ⌊q⌋ = z) (h : 1/2 < q - z) :
    rhe q = z + 1 := by
  rw [rhe, rat_floor_eq, hf, if_neg (by linarith), if_pos h]

theorem rhe_at_one : rhe (((60 : Nat) : Rat) / 60) = 1 := by
  refine rhe_eq_self_of _ 1 ?_ (by norm_num)
  rw [Int.floor_eq_iff]
  norm_num

theorem rhe_at_sixty : rhe (((3600 : Nat) : Rat) / 60) = 60 := by
  refine rhe_eq_self_of _ 60 ?_ (by norm_num)
  rw [Int.floor_eq_iff]
  norm_num

/-- Claim C3 counterexample: the boundary cases go the other way.  A delta of
exactly 60 seconds renders as "60 seconds" (the claim says minutes), and a
delta of exactly 3600 seconds renders as "60 minutes" (the claim says
hours); the spec-worded phrase function differs from the code's at 60
seconds. -/
theorem approx_time_boundary_counterexample :
    to_approximate_time 0 60 false = "60 seconds" ∧
    to_approximate_time_spec 0 60 false = "1 minutes" ∧
    to_approximate_time 0 60 false ≠ to_approximate_time_spec 0 60 false ∧
    to_approximate_time 0 3600 false = "60 minutes" := by
  have h60 : to_approximate_time 0 60 false = "60 seconds" := by decide
  have hspec : to_approximate_time_spec 0 60 false = "1 minutes" := by
    simp only [to_approximate_time_spec]
    rw [if_pos (show (0 : Int) < 1 by norm_num),
        if_neg (show ¬((60 : Nat) < 60) by omega),
        if_pos (show (60 : Nat) < 60 * 60 by omega)]
    rw [fmt_f0, rhe_at_one]
    decide
  have h3600 : to_approximate_time 0 3600 false = "60 minutes" := by
    simp only [to_approximate_time]
    rw [if_pos (show (0 : Int) < 1 by norm_num),
        if_neg (show ¬(60 * 60 < (3600 : Nat)) by omega),
        if_pos (show (60 : Nat) < 3600 by omega)]
    rw [fmt_f0, rhe_at_sixty]
    decide
  refine ⟨h60, hspec, ?_, h3600⟩
  rw [h60, hspec]
  decide

/-- Claim C3 (amended): within a day the code shows seconds for deltas of at
most 60 s, minutes for deltas of more than 60 s up to 3600 s, and hours
above 3600 s (strict boundaries: exactly 60 s renders in seconds and exactly
3600 s renders in minutes); minute and hour values are rounded to a nearest
integer; a `days` component of exactly 1 renders the literal "yesterday"
(with no " ago" suffix even when the flag is set); `days ≥ 2` renders the
integer day count; " ago" is appended in the non-"yesterday" cases exactly
when the ago flag is set; a 125-second delta yields "2 minutes". -/
theorem approx_time_phrase (s : Nat) (ago : Bool) (hday : s < 86400) :
    (s ≤ 60 → to_approximate_time 0 s ago =
      toString s ++ " seconds" ++ (if ago then " ago" else "")) ∧
    (60 < s → s ≤ 3600 → ∃ m : Int, |(m : Rat) - (s : Rat) / 60| ≤ 1/2 ∧
      to_approximate_time 0 s ago =
        toString m ++ " minutes" ++ (if ago then " ago" else "")) ∧
    (3600 < s → ∃ m : Int, |(m : Rat) - (s : Rat) / 3600| ≤ 1/2 ∧
      to_approximate_time 0 s ago =
        toString m ++ " hours" ++ (if ago then " ago" else "")) ∧
    (∀ t : Nat, to_approximate_time 1 t ago = "yesterday") ∧
    (∀ d : Int, 2 ≤ d → ∀ t : Nat,
      to_approximate_time d t ago = toString d ++ " days" ++ (if ago then " ago" else "")) ∧
    to_approximate_time 0 125 false = "2 minutes" := by
  have h125 : to_approximate_time 0 125 false = "2 minutes" := by
    simp only [to_approximate_time]
    rw [if_pos (show (0 : Int) < 1 by norm_num),
        if_neg (show ¬(60 * 60 < (125 : Nat)) by omega),
        if_pos (show (60 : Nat) < 125 by omega)]
    have hr : rhe (((125 : Nat) : Rat) / 60) = 2 := by
      refine rhe_eq_self_of _ 2 ?_ (by norm_num)
      rw [Int.floor_eq_iff]
      norm_num
    rw [fmt_f0, hr]
    decide
  refine ⟨?_, ?_, ?_, ?_, ?_, h125⟩
  · intro h
    simp only [to_approximate_time]
    rw [if_pos (show (0 : Int) < 1 by norm_num),
        if_neg (show ¬(60 * 60 < s) by omega),
        if_neg (show ¬(60 < s) by omega)]
  · intro h1 h2
    refine ⟨rhe ((s : Rat) / 60), rhe_close _, ?_⟩
    simp only [to_approximate_time]
    rw [if_pos (show (0 : Int) < 1 by norm_num),
        if_neg (show ¬(60 * 60 < s) by omega),
        if_pos (show (60 : Nat) < s by omega)]
    rw [fmt_f0]
  · intro h1
    refine ⟨rhe ((s : Rat) / (60 * 60)), ?_, ?_⟩
    · have heq : (s : Rat) / (60 * 60) = (s : Rat) / 3600 := by norm_num
      rw [← heq]
      exact rhe_close _
    · simp only [to_approximate_time]
      rw [if_pos (show (0 : Int) < 1 by norm_num),
          if_pos (show 60 * 60 < s by omega)]
      rw [fmt_f0]
  · intro t
    simp only [to_approximate_time]
    rw [if_neg (show ¬((1 : Int) < 1) by norm_num)]
    simp
  · intro d hd t
    simp only [to_approximate_time]
    rw [if_neg (show ¬(d < 1) by omega), if_neg (show ¬(d = 1) by omega)]

/-- Claim C3 witness: at a 125-second delta the phrase is "2 minutes", the
minutes case of the amended rule, with the displayed value within one half
of the exact 125/60 minutes. -/
theorem approx_time_phrase_witness :
    to_approximate_time 0 125 false = "2 minutes" ∧
    (∃ m : Int, |(m : Rat) - ((125 : Nat) : Rat) / 60| ≤ 1/2 ∧
      to_approximate_time 0 125 false =
        toString m ++ " minutes" ++ (if false then " ago" else "")) :=
  ⟨(approx_time_phrase 125 false (by norm_num)).2.2.2.2.2,
   (approx_time_phrase 125 false (by norm_num)).2.1 (by norm_num) (by norm_num)⟩

/-! ### Claims C1 and C5 -/

theorem effort_add_eq (eff : Effort) (e : TimeEntry) (now : Int)
    (h : e.description = eff.description) :
    Effort.add eff e now = .ok { eff with
      time_entries := eff.time_entries ++ [e],
      seconds := eff.seconds + contribution e eff.start_time eff.end_time now } := by
  rw [Effort.add, if_neg (by simp [h])]

/-- Claim C1 counterexample: the entry with start 0, stop 10 and duration 10
passes the window filter for the window [0, 10) yet contributes 11 seconds,
one more than its own unclipped duration, because the one-second boundary
adjustment fires when the stop time equals windowEnd. -/
theorem clip_boundary_counterexample :
    keep_window 0 10 ⟨1, "writing", 0, some 10, 10⟩ = true ∧
    contribution ⟨1, "writing", 0, some 10, 10⟩ (some 0) (some 10) 0 = 11 ∧
    (⟨1, "writing", 0, some 10, 10⟩ : TimeEntry).duration = 10 ∧
    Effort.add (new_effort "writing" (some 0) (some 10)) ⟨1, "writing", 0, some 10, 10⟩ 0 =
      .ok ⟨"writing", [⟨1, "writing", 0, some 10, 10⟩], 11, some 0, some 10⟩ ∧
    (10 : Int) < 11 := by
  refine ⟨by decide, by decide, rfl, ?_, by decide⟩
  rfl

/-- Claim C1 (amended): for a stopped entry whose stop time is consistent
with its stored duration and that passes the window filter for the window
[ws, we), the contribution accumulated by `Effort.add` is never negative and
never exceeds the entry's unclipped duration by more than one second; it can
exceed the unclipped duration only when the entry's stop time equals
windowEnd exactly (the one-second boundary adjustment). -/
theorem clip_bounds (e : TimeEntry) (ws we now : Int)
    (hd : 0 ≤ e.duration)
    (hst : e.stop_time = e.start_time + e.duration)
    (hks : ws < e.stop_time)
    (hke : e.start_time < we)
    (hw : ws ≤ we) :
    0 ≤ contribution e (some ws) (some we) now ∧
    contribution e (some ws) (some we) now ≤ e.duration + 1 ∧
    (e.stop_time ≠ we → contribution e (some ws) (some we) now ≤ e.duration) := by
  simp only [contribution]
  rw [if_pos (show e.duration ≥ 0 from hd)]
  split_ifs with h1 h2 <;>
    refine ⟨by omega, by omega, fun hne => by omega⟩

/-- Claim C1 witness: the stopped entry [0, 50) clipped to the window
[10, 40) contributes between 0 and its 50-second duration. -/
theorem clip_bounds_witness :
    0 ≤ contribution ⟨2, "coding", 0, some 50, 50⟩ (some 10) (some 40) 0 ∧
    contribution ⟨2, "coding", 0, some 50, 50⟩ (some 10) (some 40) 0 ≤
      (⟨2, "coding", 0, some 50, 50⟩ : TimeEntry).duration + 1 ∧
    ((⟨2, "coding", 0, some 50, 50⟩ : TimeEntry).stop_time ≠ 40 →
      contribution ⟨2, "coding", 0, some 50, 50⟩ (some 10) (some 40) 0 ≤
        (⟨2, "coding", 0, some 50, 50⟩ : TimeEntry).duration) :=
  clip_bounds ⟨2, "coding", 0, some 50, 50⟩ 10 40 0 (by decide) (by decide)
    (by decide) (by decide) (by decide)

/-- Claim C5: a running entry (negative duration sentinel) contributes
exactly `now - start_time` whole seconds; the contribution is monotonically
non-decreasing as `now` advances, and is identical for any two values of the
window end. -/
theorem running_contribution (e : TimeEntry) (ws we we' : Option Int)
    (now now' : Int) (hr : e.duration < 0) :
    contribution e ws we now = now - e.start_time ∧
    (now ≤ now' → contribution e ws we now ≤ contribution e ws we now') ∧
    contribution e ws we now = contribution e ws we' now := by
  have h : ∀ (w : Option Int) (t : Int), contribution e ws w t = t - e.start_time := by
    intro w t
    rw [contribution, if_neg (show ¬(e.duration ≥ 0) by omega)]
  refine ⟨h we now, fun hle => ?_, (h we now).trans (h we' now).symm⟩
  rw [h we now, h we now']
  omega

/-- Claim C5 witness: a running entry started at 100 contributes 125 seconds
at now = 225, no more than at now = 300, and the same under any window
end. -/
theorem running_contribution_witness :
    contribution ⟨1, "writing", 100, none, -1⟩ none (some 500) 225 =
      225 - (⟨1, "writing", 100, none, -1⟩ : TimeEntry).start_time ∧
    contribution ⟨1, "writing", 100, none, -1⟩ none (some 500) 225 ≤
      contribution ⟨1, "writing", 100, none, -1⟩ none (some 500) 300 ∧
    contribution ⟨1, "writing", 100, none, -1⟩ none (some 500) 225 =
      contribution ⟨1, "writing", 100, none, -1⟩ none none 225 :=
  ⟨(running_contribution ⟨1, "writing", 100, none, -1⟩ none (some 500) none 225 300 (by decide)).1,
   (running_contribution ⟨1, "writing", 100, none, -1⟩ none (some 500) none 225 300 (by decide)).2.1 (by decide),
   (running_contribution ⟨1, "writing", 100, none, -1⟩ none (some 500) none 225 300 (by decide)).2.2⟩

/-! ### Claim C4 -/

/-- Claim C4: `needs_refresh` returns true exactly when the force flag is
set, the snapshot timestamp is missing (absent, null or the 0 "force
refresh" sentinel), the stored entries are missing or empty, or the snapshot
age strictly exceeds the TTL.  With TTL 300: age 400 refreshes, age 100 does
not, and age exactly 300 does not (strict inequality). -/
theorem needs_refresh_iff :
    (∀ (c : CacheSnapshot) (now ttl : Int) (force : Bool),
      needs_refresh c now ttl force = true ↔
        (force = true ∨ time_truthy c = false ∨ entries_truthy c = false ∨
          now - c.time.getD 0 > ttl)) ∧
    needs_refresh ⟨some 600, some [⟨1, "writing", 0, some 10, 10⟩]⟩ 1000 300 false = true ∧
    needs_refresh ⟨some 900, some [⟨1, "writing", 0, some 10, 10⟩]⟩ 1000 300 false = false ∧
    needs_refresh ⟨some 700, some [⟨1, "writing", 0, some 10, 10⟩]⟩ 1000 300 false = false := by
  refine ⟨?_, by decide, by decide, by decide⟩
  intro c now ttl force
  cases force with
  | true => simp [needs_refresh]
  | false =>
    cases h1 : time_truthy c with
    | false => simp [needs_refresh, h1]
    | true =>
      cases h2 : entries_truthy c with
      | false => simp [needs_refresh, h1, h2]
      | true => simp [needs_refresh, h1, h2]

/-! ### Claim C7 -/

/-- Claim C7: each mutating action verb (`start`, `continue`, `stop`)
resets the cache timestamp to 0 while leaving the stored entries unchanged,
so the next query refreshes from the remote service even within the TTL
window. -/
theorem mutating_action_invalidates (query : String) (c : CacheSnapshot)
    (h : cmd_of query = "start" ∨ cmd_of query = "continue" ∨ cmd_of query = "stop") :
    (do_action_cache query c).time = some 0 ∧
    (do_action_cache query c).time_entries = c.time_entries ∧
    ∀ now ttl : Int, needs_refresh (do_action_cache query c) now ttl false = true := by
  have hs : do_action_cache query c = schedule_refresh c := by
    rw [do_action_cache]
    rcases h with h | h | h <;> simp [h]
  rw [hs]
  refine ⟨rfl, rfl, fun now ttl => ?_⟩
  have ht : time_truthy (schedule_refresh c) = false := by
    rw [schedule_refresh, time_truthy]
    simp
  rw [needs_refresh]
  rw [if_neg (by simp), ht]
  simp

/-- Claim C7 witness: the `stop` action on a fresh snapshot zeroes the
timestamp, keeps the entries, and forces the next refresh decision. -/
theorem mutating_action_invalidates_witness :
    (do_action_cache "stop|7|coding" ⟨some 500, some []⟩).time = some 0 ∧
    (do_action_cache "stop|7|coding" ⟨some 500, some []⟩).time_entries =
      (⟨some 500, some []⟩ : CacheSnapshot).time_entries ∧
    needs_refresh (do_action_cache "stop|7|coding" ⟨some 500, some []⟩) 600 300 false = true :=
  ⟨(mutating_action_invalidates "stop|7|coding" ⟨some 500, some []⟩
      (Or.inr (Or.inr (by decide)))).1,
   (mutating_action_invalidates "stop|7|coding" ⟨some 500, some []⟩
      (Or.inr (Or.inr (by decide)))).2.1,
   (mutating_action_invalidates "stop|7|coding" ⟨some 500, some []⟩
      (Or.inr (Or.inr (by decide)))).2.2 600 300⟩

/-! ### Claim C8 -/

/-- Claim C8: when the remote fetch fails during a query that refreshes,
`tell_query` raises the user-visible "Problem talking to toggl.com" failure
and the cache snapshot - timestamp and stored entries - is left exactly as
it was; no partial overwrite occurs on the error path. -/
theorem fetch_failure_preserves_cache (c : CacheSnapshot) (now : Int) (force : Bool) :
    (tell_query_fetch c now force (.error ())).1 = c ∧
    (needs_refresh c now CACHE_LIFETIME force = true →
      (tell_query_fetch c now force (.error ())).2 =
        .error "Problem talking to toggl.com") := by
  rw [tell_query_fetch]
  split_ifs with h
  · exact ⟨rfl, fun _ => rfl⟩
  · exact ⟨rfl, fun hh => absurd hh h⟩

/-- Claim C8 witness: an empty snapshot needs a refresh; with a failing
fetch the snapshot is returned unchanged together with the error message. -/
theorem fetch_failure_preserves_cache_witness :
    (tell_query_fetch ⟨none, none⟩ 1000 false (.error ())).1 = (⟨none, none⟩ : CacheSnapshot) ∧
    (tell_query_fetch ⟨none, none⟩ 1000 false (.error ())).2 =
      .error "Problem talking to toggl.com" :=
  ⟨(fetch_failure_preserves_cache ⟨none, none⟩ 1000 false).1,
   (fetch_failure_preserves_cache ⟨none, none⟩ 1000 false).2 (by decide)⟩

/-! ### Claim C10 -/

/-- Claim C10: when the stored stop field is absent, `stop_time` is derived
unconditionally as `start_time + duration`, so for a running entry (negative
sentinel) the derived stop falls strictly before the start; consequently
both window filters exclude such an entry whenever the window start is at or
after the derived stop time. -/
theorem running_no_stop_excluded (e : TimeEntry) (ws we : Int)
    (hs : e.stop = none) (hr : e.duration < 0) (hws : e.stop_time ≤ ws) :
    e.stop_time = e.start_time + e.duration ∧
    e.stop_time < e.start_time ∧
    keep_after ws e = false ∧
    keep_window ws we e = false := by
  have h1 : e.stop_time = e.start_time + e.duration := by
    rw [TimeEntry.stop_time, hs]
  refine ⟨h1, by omega, ?_, ?_⟩
  · rw [keep_after]
    exact decide_eq_false (by omega)
  · rw [keep_window]
    have h2 : decide (e.stop_time > ws) = false := decide_eq_false (by omega)
    rw [h2, Bool.and_false]

/-- Claim C10 witness: a running entry started at 100 with no stop field has
derived stop time 99 and is excluded from a query windowed at `ws = 99`. -/
theorem running_no_stop_excluded_witness :
    (⟨3, "running", 100, none, -1⟩ : TimeEntry).stop_time =
      (⟨3, "running", 100, none, -1⟩ : TimeEntry).start_time +
        (⟨3, "running", 100, none, -1⟩ : TimeEntry).duration ∧
    (⟨3, "running", 100, none, -1⟩ : TimeEntry).stop_time <
      (⟨3, "running", 100, none, -1⟩ : TimeEntry).start_time ∧
    keep_after 99 ⟨3, "running", 100, none, -1⟩ = false ∧
    keep_window 99 200 ⟨3, "running", 100, none, -1⟩ = false :=
  running_no_stop_excluded ⟨3, "running", 100, none, -1⟩ 99 200 rfl
    (by decide) (by decide)

/-! ### Claim C6 -/

theorem upd_effort_match (f : Effort) (e : TimeEntry) (now : Int)
    (h : f.description = e.description) :
    upd_effort e now f = { f with
      time_entries := f.time_entries ++ [e],
      seconds := f.seconds + contribution e f.start_time f.end_time now } := by
  rw [upd_effort, if_pos h, effort_add_eq f e now h.symm]

theorem upd_effort_skip (f : Effort) (e : TimeEntry) (now : Int)
    (h : ¬f.description = e.description) :
    upd_effort e now f = f := by
  rw [upd_effort, if_neg h]

theorem upd_effort_description (f : Effort) (e : TimeEntry) (now : Int) :
    (upd_effort e now f).description = f.description := by
  by_cases h : f.description = e.description
  · rw [upd_effort_match f e now h]
  · rw [upd_effort_skip f e now h]

theorem add_entry_new (now : Int) (ws we : Option Int) (effs : List Effort)
    (e : TimeEntry)
    (h : effs.any (fun f => decide (f.description = e.description)) = false) :
    add_entry now ws we effs e =
      effs ++ [⟨e.description, [e], contribution e ws we now, ws, we⟩] := by
  rw [add_entry, if_neg (by simp [h]), effort_add_eq _ e now rfl]
  simp [new_effort]

theorem entries_for_cons (f : Effort) (rest : List Effort) (d : String) :
    entries_for (f :: rest) d =
      if f.description = d then f.time_entries else entries_for rest d := rfl

theorem entries_for_eq_nil (effs : List Effort) (d : String)
    (h : ∀ f ∈ effs, f.description ≠ d) : entries_for effs d = [] := by
  induction effs with
  | nil => rfl
  | cons f rest ih =>
    rw [entries_for_cons, if_neg (h f (by simp)),
        ih (fun g hg => h g (by simp [hg]))]

theorem entries_for_append (effs₁ effs₂ : List Effort) (d : String) :
    entries_for (effs₁ ++ effs₂) d =
      if effs₁.any (fun f => decide (f.description = d)) = true
      then entries_for effs₁ d else entries_for effs₂ d := by
  induction effs₁ with
  | nil => simp [entries_for]
  | cons f rest ih =>
    by_cases hf : f.description = d
    · have hany : ((f :: rest).any fun f => decide (f.description = d)) = true := by
        simp [hf]
      rw [List.cons_append, entries_for_cons, if_pos hf, if_pos hany,
          entries_for_cons, if_pos hf]
    · cases hany : rest.any (fun f => decide (f.description = d)) with
      | true =>
        have h2 : ((f :: rest).any fun f => decide (f.description = d)) = true := by
          simp [hany]
        rw [List.cons_append, entries_for_cons, if_neg hf, ih, if_pos hany,
            if_pos h2, entries_for_cons, if_neg hf]
      | false =>
        have h2 : ((f :: rest).any fun f => decide (f.description = d)) = false := by
          simp [hf, hany]
        rw [List.cons_append, entries_for_cons, if_neg hf, ih,
            if_neg (by simp [hany]), if_neg (by simp [h2])]

theorem entries_for_map_upd_ne (e : TimeEntry) (now : Int) (d : String)
    (hne : e.description ≠ d) :
    ∀ effs : List Effort,
      entries_for (effs.map (upd_effort e now)) d = entries_for effs d := by
  intro effs
  induction effs with
  | nil => rfl
  | cons f rest ih =>
    rw [List.map_cons, entries_for_cons, entries_for_cons, upd_effort_description]
    by_cases hf : f.description = d
    · rw [if_pos hf, if_pos hf,
          upd_effort_skip f e now (fun hh => hne (hh.symm.trans hf))]
    · rw [if_neg hf, if_neg hf, ih]

theorem entries_for_map_upd_match (e : TimeEntry) (now : Int) :
    ∀ effs : List Effort,
      effs.any (fun f => decide (f.description = e.description)) = true →
      entries_for (effs.map (upd_effort e now)) e.description =
        entries_for effs e.description ++ [e] := by
  intro effs
  induction effs with
  | nil => intro h; simp at h
  | cons f rest ih =>
    intro h
    rw [List.map_cons, entries_for_cons, entries_for_cons, upd_effort_description]
    by_cases hf : f.description = e.description
    · rw [if_pos hf, if_pos hf, upd_effort_match f e now hf]
    · have hrest : rest.any (fun f => decide (f.description = e.description)) = true := by
        simpa [hf] using h
      rw [if_neg hf, if_neg hf, ih hrest]

theorem entries_for_add_entry (now : Int) (ws we : Option Int)
    (effs : List Effort) (e : TimeEntry) (d : String) :
    entries_for (add_entry now ws we effs e) d =
      entries_for effs d ++ (if e.description = d then [e] else []) := by
  cases hany : effs.any (fun f => decide (f.description = e.description)) with
  | false =>
    rw [add_entry_new now ws we effs e hany, entries_for_append]
    by_cases hd : e.description = d
    · have hnone : (effs.any fun f => decide (f.description = d)) = false := by
        rw [← hd]; exact hany
      have hall : ∀ f ∈ effs, f.description ≠ d := by
        intro f hf
        have := List.any_eq_false.mp hnone f hf
        simpa using this
      rw [if_neg (by simp [hnone]), entries_for_eq_nil effs d hall,
          entries_for_cons, if_pos hd]
      simp [hd]
    · cases hd2 : effs.any (fun f => decide (f.description = d)) with
      | true =>
        rw [if_pos (show (true : Bool) = true from rfl), if_neg hd]
        simp
      | false =>
        have hall : ∀ f ∈ effs, f.description ≠ d := by
          intro f hf
          have := List.any_eq_false.mp hd2 f hf
          simpa using this
        rw [if_neg (show ¬((false : Bool) = true) by simp),
            entries_for_eq_nil effs d hall, entries_for_cons, if_neg hd, if_neg hd]
        rfl
  | true =>
    rw [add_entry, if_pos hany]
    by_cases hd : e.description = d
    · subst hd
      rw [if_pos rfl, entries_for_map_upd_match e now effs hany]
    · rw [if_neg hd, entries_for_map_upd_ne e now d hd effs, List.append_nil]

theorem entries_for_foldl (now : Int) (ws we : Option Int) :
    ∀ (es : List TimeEntry) (effs : List Effort) (d : String),
      entries_for (es.foldl (add_entry now ws we) effs) d =
        entries_for effs d ++ es.filter (fun x => decide (x.description = d)) := by
  intro es
  induction es with
  | nil => intro effs d; simp
  | cons e es ih =>
    intro effs d
    rw [List.foldl_cons, ih, entries_for_add_entry, List.filter_cons,
        List.append_assoc]
    by_cases hd : e.description = d
    · rw [if_pos hd, if_pos (by simp [hd])]
      rfl
    · rw [if_neg hd, if_neg (by simp [hd])]
      rfl

theorem upd_effort_entries_match (f : Effort) (e : TimeEntry) (now : Int)
    (h : f.description = e.description) :
    (upd_effort e now f).time_entries = f.time_entries ++ [e] := by
  rw [upd_effort_match f e now h]

theorem map_upd_id (e : TimeEntry) (now : Int) :
    ∀ rest : List Effort, (∀ g ∈ rest, ¬(g.description = e.description)) →
      rest.map (upd_effort e now) = rest := by
  intro rest
  induction rest with
  | nil => intro _; rfl
  | cons g gs ih =>
    intro h
    rw [List.map_cons, upd_effort_skip g e now (h g (by simp)),
        ih (fun x hx => h x (by simp [hx]))]

theorem map_description_upd (e : TimeEntry) (now : Int) (effs : List Effort) :
    (effs.map (upd_effort e now)).map Effort.description =
      effs.map Effort.description := by
  induction effs with
  | nil => rfl
  | cons f rest ih =>
    rw [List.map_cons, List.map_cons, List.map_cons, upd_effort_description, ih]

theorem add_entry_keys_nodup (now : Int) (ws we : Option Int)
    (effs : List Effort) (e : TimeEntry)
    (h : (effs.map Effort.description).Nodup) :
    ((add_entry now ws we effs e).map Effort.description).Nodup := by
  cases hany : effs.any (fun f => decide (f.description = e.description)) with
  | true =>
    rw [add_entry, if_pos hany, map_description_upd]
    exact h
  | false =>
    rw [add_entry_new now ws we effs e hany, List.map_append]
    rw [List.nodup_append]
    refine ⟨h, List.nodup_singleton _, ?_⟩
    intro a ha hb
    have ha' : a = e.description := by simpa using hb
    obtain ⟨f, hf, hfd⟩ := List.mem_map.mp ha
    have := List.any_eq_false.mp hany f hf
    simp only [decide_eq_true_eq] at this
    exact this (hfd.trans ha')

theorem flatten_map_upd (e : TimeEntry) (now : Int) :
    ∀ effs : List Effort,
      (effs.map Effort.description).Nodup →
      effs.any (fun f => decide (f.description = e.description)) = true →
      ((effs.map (upd_effort e now)).map Effort.time_entries).flatten.Perm
        ((effs.map Effort.time_entries).flatten ++ [e]) := by
  intro effs
  induction effs with
  | nil => intro _ h; simp at h
  | cons f rest ih =>
    intro hnd hany
    simp only [List.map_cons, List.flatten_cons]
    by_cases hf : f.description = e.description
    · have hhead : f.description ∉ rest.map Effort.description :=
        (List.nodup_cons.mp hnd).1
      have hrest_ne : ∀ g ∈ rest, ¬(g.description = e.description) := by
        intro g hg hgd
        exact hhead (by
          rw [hf, ← hgd]
          exact List.mem_map_of_mem Effort.description hg)
      rw [map_upd_id e now rest hrest_ne, upd_effort_entries_match f e now hf,
          List.append_assoc, List.append_assoc]
      exact List.Perm.append_left f.time_entries List.perm_append_comm
    · have hrest : rest.any (fun g => decide (g.description = e.description)) = true := by
        simpa [hf] using hany
      have hnd' : (rest.map Effort.description).Nodup := (List.nodup_cons.mp hnd).2
      rw [upd_effort_skip f e now hf, List.append_assoc]
      exact List.Perm.append_left f.time_entries (ih hnd' hrest)

theorem flatten_add_entry (now : Int) (ws we : Option Int)
    (effs : List Effort) (e : TimeEntry)
    (h : (effs.map Effort.description).Nodup) :
    ((add_entry now ws we effs e).map Effort.time_entries).flatten.Perm
      ((effs.map Effort.time_entries).flatten ++ [e]) := by
  cases hany : effs.any (fun f => decide (f.description = e.description)) with
  | true =>
    rw [add_entry, if_pos hany]
    exact flatten_map_upd e now effs h hany
  | false =>
    rw [add_entry_new now ws we effs e hany, List.map_append, List.flatten_append]
    exact List.Perm.refl _

theorem flatten_foldl (now : Int) (ws we : Option Int) :
    ∀ (es : List TimeEntry) (effs : List Effort),
      (effs.map Effort.description).Nodup →
      ((es.foldl (add_entry now ws we) effs).map Effort.time_entries).flatten.Perm
        ((effs.map Effort.time_entries).flatten ++ es) := by
  intro es
  induction es with
  | nil => intro effs _; simp
  | cons e es ih =>
    intro effs h
    rw [List.foldl_cons]
    have h1 := ih (add_entry now ws we effs e) (add_entry_keys_nodup now ws we effs e h)
    have h2 := List.Perm.append_right es (flatten_add_entry now ws we effs e h)
    have h3 : ((effs.map Effort.time_entries).flatten ++ [e]) ++ es =
        (effs.map Effort.time_entries).flatten ++ (e :: es) := by
      rw [List.append_assoc]
      rfl
    rw [← h3]
    exact h1.trans h2

theorem aggregate_keys_nodup (es : List TimeEntry) (ws we : Option Int) (now : Int) :
    ((aggregate es ws we now).map Effort.description).Nodup := by
  rw [aggregate]
  have hstep : ∀ (l : List TimeEntry) (effs : List Effort),
      (effs.map Effort.description).Nodup →
      ((l.foldl (add_entry now ws we) effs).map Effort.description).Nodup := by
    intro l
    induction l with
    | nil => intro effs h; simpa using h
    | cons e l ih =>
      intro effs h
      rw [List.foldl_cons]
      exact ih _ (add_entry_keys_nodup now ws we effs e h)
  exact hstep es [] (by simp)

/-- Claim C6: aggregation groups entries 1:1 by description.  The efforts
carry pairwise-distinct descriptions, the effort for description `d`
contains exactly the input entries whose description is `d` (in input
order), and the concatenation of all efforts' entry lists is a permutation
of the input list - every input entry appears exactly once, with no
duplication and no loss. -/
theorem aggregate_partitions (es : List TimeEntry) (ws we : Option Int) (now : Int) :
    ((aggregate es ws we now).map Effort.description).Nodup ∧
    (∀ d : String, entries_for (aggregate es ws we now) d =
      es.filter (fun x => decide (x.description = d))) ∧
    ((aggregate es ws we now).map Effort.time_entries).flatten.Perm es := by
  refine ⟨aggregate_keys_nodup es ws we now, ?_, ?_⟩
  · intro d
    rw [aggregate, entries_for_foldl]
    rfl
  · have h := flatten_foldl now ws we es [] (by simp)
    simpa using h

end JcToggl
